import Mathlib

/-!
# Verification of the MuJoCo exporter (`onshape_to_robot/exporter_mujoco.py`)

Shallow embedding of the tree-to-document export engine and proofs about it.

Modelling conventions:

* Machine floats are modelled as rationals (`ℚ`); the `"%.20g"` formatting of a
  number is modelled by carrying the number itself in the emitted node.
* The XML text accumulated in `self.xml` is modelled as a `List Node` where each
  `Node` is the structured content of one appended line; fixed boilerplate lines
  are kept verbatim as `Node.raw` strings.
* Console warnings (`print(warning(...))`) are modelled in the `warnings` field
  of the exporter state.
* `numpy` 4x4 matrices are `Matrix (Fin 4) (Fin 4) ℚ`; `np.linalg.inv` is
  modelled by the adjugate formula `det⁻¹ • adjugate`, which agrees with the
  inverse on every invertible matrix (all transforms here are rigid, hence
  invertible).
* `transforms3d.quaternions.mat2quat` is an external library function producing
  a quaternion from the rotation block; the emitted pose is modelled by the
  data it is computed from: the translation column and the rotation block.
* Python's unbounded recursion in `add_link` is modelled with an explicit fuel
  parameter; theorems quantify over the fuel.
* A raised `KeyError` (dict indexing with a missing key) is modelled by
  `Option`: `none` means the export aborts with an exception.
* `set(self.meshes)` iterates in an unspecified (hash) order; it is modelled by
  `List.dedup`, a deterministic duplicate-free enumeration. The claims proved
  here depend only on membership and uniqueness, not on the order.
-/

namespace OnshapeMujoco

abbrev Vec3 := Fin 3 → ℚ
abbrev Mat3 := Fin 3 → Fin 3 → ℚ
abbrev Mat4 := Matrix (Fin 4) (Fin 4) ℚ

/-- Matrix product `A @ B` (numpy `@`). -/
def mmul (A B : Mat4) : Mat4 := A * B

/-- `np.linalg.inv`, via the adjugate formula (equal to `A⁻¹` for invertible `A`). -/
def minv (A : Mat4) : Mat4 := A.det⁻¹ • A.adjugate

/-- The data `pos_quat` (lines 284-292) prints: the translation column
`matrix[:3, 3]` and the rotation block `matrix[:3, :3]` that the external
`mat2quat` turns into a unit quaternion. The block determines the printed
quaternion, so pose equality is modelled as equality of this data. -/
structure PosQuat where
  pos : Vec3
  rot : Mat3
deriving DecidableEq

/-- `pos_quat` (lines 284-292): extract the pose data of a transform. -/
def pos_quat (m : Mat4) : PosQuat :=
  ⟨fun i => m i.castSucc 3, fun i j => m i.castSucc j.castSucc⟩

/-- A value of the joint property dict: Python strings, numbers or booleans. -/
inductive PropVal where
  | s (v : String)
  | n (v : ℚ)
  | b (v : Bool)
deriving DecidableEq

/-- Python truthiness of a property value. -/
def PropVal.truthy : PropVal → Bool
  | .s v => !(v == "")
  | .n v => !(v == 0)
  | .b v => v

/-- Decimal rendering of a rational (models `str()` of a number). -/
def ratStr (q : ℚ) : String :=
  if q.den == 1 then toString q.num else toString q.num ++ "/" ++ toString q.den

/-- Interpolation of a property value into an f-string. -/
def PropVal.fmt : PropVal → String
  | .s v => v
  | .n v => ratStr v
  | .b v => if v then "True" else "False"

/-- Dict lookup `d.get(k)` on the property mapping. -/
def getProp (props : List (String × PropVal)) (k : String) : Option PropVal :=
  (props.find? (fun p => p.1 == k)).map Prod.snd

/-- Python `k in d` on the property mapping. -/
def hasProp (props : List (String × PropVal)) (k : String) : Bool :=
  (getProp props k).isSome

/-- `shapes.py` closed variant set; each shape carries its transform relative
to the owning part. -/
inductive Shape where
  | Box (T : Mat4) (size : Vec3)
  | Cylinder (T : Mat4) (radius length : ℚ)
  | Sphere (T : Mat4) (radius : ℚ)

/-- The shape's `T_part_shape` attribute. -/
def Shape.tps : Shape → Mat4
  | .Box T _ => T
  | .Cylinder T _ _ => T
  | .Sphere T _ => T

/-- Modelled from the spec: the `Part` class of `robot.py` (not under `src/`):
name, optional mesh reference, optional list of primitive shapes (`None`
when the part has no explicit shapes), an RGB color and the rigid transform
locating the part in world coordinates (the exporter reads
`part.T_world_part`). -/
structure Part where
  name : String
  mesh_file : Option String
  shapes : Option (List Shape)
  color : Vec3
  T_world_part : Mat4

/-- Modelled from the spec: the `Link` class of `robot.py` (not under `src/`):
name, ordered parts, named auxiliary frames, and the dynamics accessor
`get_dynamics(T) -> (mass, com, inertia)`. -/
structure Link where
  name : String
  parts : List Part
  frames : List (String × Mat4)
  dynamics : Mat4 → ℚ × Vec3 × Mat3

/-- Joint types used by the exporter. -/
inductive JointType where
  | REVOLUTE
  | PRISMATIC
  | FIXED
deriving DecidableEq

/-- Modelled from the spec: the `Joint` class of `robot.py` (not under `src/`):
name, type, parent and child links, the world transform of the joint frame,
the property mapping and the optional motion limits. -/
structure Joint where
  name : String
  joint_type : JointType
  parent : Link
  child : Link
  T_world_joint : Mat4
  properties : List (String × PropVal)
  limits : Option (ℚ × ℚ)

/-- Modelled from the spec: the `Robot` class of `robot.py` (not under `src/`):
name, links, joints and the designated base link returned by
`get_base_link()`. -/
structure Robot where
  name : String
  links : List Link
  joints : List Joint
  base_link : Link

/-- Modelled from the spec: `robot.get_base_link()` returns the designated
base link (tree root). -/
def Robot.get_base_link (r : Robot) : Link := r.base_link

/-- The joints whose parent is the given name (links are identified by name). -/
def childrenOf (J : List Joint) (x : String) : List Joint :=
  J.filter (fun j => j.parent.name == x)

/-- Modelled from the spec: `robot.get_link_joints(link)` enumerates the
joints whose parent is this link. -/
def Robot.get_link_joints (r : Robot) (l : Link) : List Joint :=
  childrenOf r.joints l.name

/-- The exporter instance configuration set in `__init__` (lines 13-33). -/
structure ExporterCfg where
  draw_collisions : Bool := false
  no_dynamics : Bool := false
  additional_xml : String := ""
  collision_shapes_only : Bool := false
  config_comment : Option String := none

/-- One appended line of the output document, structured. `raw` keeps fixed
boilerplate and comment lines verbatim. -/
inductive Node where
  | raw (s : String)
  | bodyOpen (name : String) (pq : PosQuat)
  | bodyClose
  | freejoint (name : String)
  | jointNode (name : String) (jtype : String) (attrs : List (String × String))
  | inertialNode (pos : Vec3) (mass : ℚ) (fullinertia : List ℚ)
  | geomMesh (cls : String) (pq : PosQuat) (mesh : String) (material : String)
  | geomBox (cls : String) (pq : PosQuat) (size : Vec3) (material : Option String)
  | geomCylinder (cls : String) (pq : PosQuat) (radius halfLength : ℚ) (material : Option String)
  | geomSphere (cls : String) (pq : PosQuat) (radius : ℚ) (material : Option String)
  | siteNode (name : String) (pq : PosQuat)
  | meshAsset (file : String)
  | materialAsset (name : String) (rgba : Vec3)
  | actuatorNode (kind : String) (name : String) (joint : String) (attrs : List (String × String))
deriving DecidableEq

/-- The exporter's mutable accumulator state: `self.meshes`, `self.materials`
(an insertion-ordered dict) and the console warnings printed so far. These
fields are initialised in `__init__` (lines 20-21) and are NOT reset by
`build` (only `self.xml` is, line 39). -/
structure St where
  meshes : List String
  materials : List (String × Vec3)
  warnings : List String

/-- The accumulator state right after `__init__`. -/
def stEmpty : St := ⟨[], [], []⟩

/-- Python dict assignment `d[k] = v`: overwrite in place, else append
(insertion order preserved). -/
def dictInsert (k : String) (v : Vec3) : List (String × Vec3) → List (String × Vec3)
  | [] => [(k, v)]
  | (k2, v2) :: rest =>
      if k2 == k then (k2, v) :: rest else (k2, v2) :: dictInsert k v rest

/-- Python truthiness of an optional string attribute (`part.mesh_file`). -/
def strOptTruthy : Option String → Bool
  | none => false
  | some s => !(s == "")

/-- Modelled from the spec: `xml_escape` (`exporter_utils.py`, not under
`src/`) escapes XML special characters. -/
def xml_escape (s : String) : String :=
  ⟨s.data.flatMap (fun c =>
    if c == '&' then "&amp;".data
    else if c == '<' then "&lt;".data
    else if c == '>' then "&gt;".data
    else [c])⟩

/-- Python `s.split(sep)` for a one-character separator (empty parts kept). -/
def splitChar (c : Char) : List Char → List (List Char)
  | [] => [[]]
  | x :: xs =>
    let r := splitChar c xs
    if x == c then [] :: r
    else
      match r with
      | [] => [[x]]
      | g :: gs => (x :: g) :: gs

/-- Python `sep.join(groups)` for a one-character separator. -/
def joinChar (c : Char) : List (List Char) → List Char
  | [] => []
  | [g] => g
  | g :: gs => g ++ c :: joinChar c gs

/-- `os.path.basename` for slash-separated paths. -/
def basename (s : String) : String := ⟨(splitChar '/' s.data).getLastD []⟩

/-- Python `".".join(s.split(".")[:-1])`: drop the extension. -/
def dropExt (s : String) : String := ⟨joinChar '.' ((splitChar '.' s.data).dropLast)⟩

/-- `add_inertial` (lines 106-121): one inertial node with position, mass and
the six independent tensor entries in the order
`I[0,0], I[1,1], I[2,2], I[0,1], I[0,2], I[1,2]`. -/
def add_inertial (mass : ℚ) (com : Vec3) (inertia : Mat3) : List Node :=
  [.inertialNode com mass
    [inertia 0 0, inertia 1 1, inertia 2 2, inertia 0 1, inertia 0 2, inertia 1 2]]

/-- `add_mesh` (lines 123-147): emit a mesh geom positioned by
`inv(T_world_link) @ part.T_world_part` and register the mesh file and the
derived material in the accumulators. -/
def add_mesh (part : Part) (class_ : String) (T_world_link : Mat4) (st : St) :
    St × List Node :=
  let mesh_file := basename (part.mesh_file.getD "")
  let mesh_file_no_ext := dropExt mesh_file
  let material_name := mesh_file_no_ext ++ "_material"
  let T_link_part := mmul (minv T_world_link) part.T_world_part
  let geom : Node :=
    .geomMesh class_ (pos_quat T_link_part) (xml_escape mesh_file_no_ext)
      (xml_escape material_name)
  (⟨st.meshes ++ [mesh_file], dictInsert material_name part.color st.materials,
    st.warnings⟩,
   [.raw ("<!-- Mesh " ++ part.name ++ " -->"), geom])

/-- The geom node built by one iteration of the `add_shapes` loop
(lines 153-177). -/
def shapeNode (part : Part) (class_ : String) (T_world_link : Mat4) (shape : Shape) :
    Node :=
  let pq := pos_quat (mmul (mmul (minv T_world_link) part.T_world_part) shape.tps)
  let mat : Option String :=
    if class_ == "visual" then some (xml_escape (part.name ++ "_material")) else none
  match shape with
  | .Box _ size => .geomBox class_ pq (fun i => size i / 2) mat
  | .Cylinder _ radius length => .geomCylinder class_ pq radius (length / 2) mat
  | .Sphere _ radius => .geomSphere class_ pq radius mat

/-- The material registration done by one iteration of the `add_shapes` loop
(lines 171-173): only for the visual class. -/
def shapeSt (part : Part) (class_ : String) (st : St) : St :=
  if class_ == "visual" then
    ⟨st.meshes, dictInsert (part.name ++ "_material") part.color st.materials,
     st.warnings⟩
  else st

/-- The `for shape in part.shapes` loop of `add_shapes`. -/
def shapesLoop (part : Part) (class_ : String) (T_world_link : Mat4) :
    List Shape → St → St × List Node
  | [], st => (st, [])
  | shape :: rest, st =>
    let geom := shapeNode part class_ T_world_link shape
    let r := shapesLoop part class_ T_world_link rest (shapeSt part class_ st)
    (r.1, geom :: r.2)

/-- `add_shapes` (lines 149-177): one geom node per primitive shape. -/
def add_shapes (part : Part) (class_ : String) (T_world_link : Mat4) (st : St) :
    St × List Node :=
  shapesLoop part class_ T_world_link (part.shapes.getD []) st

/-- `add_geometries` (lines 179-189): shape geoms for the collision policy if
the part declares shapes, else a mesh geom if the part references a mesh and
(the policy is visual or shapes-only mode is off). -/
def add_geometries (cfg : ExporterCfg) (part : Part) (T_world_link : Mat4)
    (class_ what : String) (st : St) : St × List Node :=
  if what == "collision" && part.shapes.isSome then
    add_shapes part class_ T_world_link st
  else if strOptTruthy part.mesh_file && (what == "visual" || !cfg.collision_shapes_only) then
    add_mesh part class_ T_world_link st
  else (st, [])

/-- The joint type attribute (lines 196-202): REVOLUTE is `hinge`, PRISMATIC is
`slide`, and the unsupported FIXED becomes `free` (with a warning). -/
def jointTypeStr : JointType → String
  | .REVOLUTE => "hinge"
  | .PRISMATIC => "slide"
  | .FIXED => "free"

/-- The warning printed for a FIXED joint (line 201). -/
def fixedJointWarning : String := "Joint type is not supported in MuJoCo: fixed"

/-- The pass-through attribute loop of `add_joint` (lines 204-215): for each
recognized key present in the mapping, rename `friction` to `frictionloss`
and then index the dict with the (possibly renamed) key; a missing key at
that indexing is a `KeyError` (`none`). -/
def passThroughAttrs (props : List (String × PropVal)) : List String →
    Option (List (String × String))
  | [] => some []
  | key :: rest =>
    if hasProp props key then
      let key2 := if key == "friction" then "frictionloss" else key
      match getProp props key2 with
      | none => none
      | some v => (passThroughAttrs props rest).map (fun l => (key2, v.fmt) :: l)
    else passThroughAttrs props rest

/-- The recognized pass-through keys of `add_joint` (lines 204-211). -/
def jointPassKeys : List String :=
  ["class", "friction", "frictionloss", "armature", "damping", "stiffness"]

/-- A joint whose pass-through loop cannot raise: it does not have `friction`
without `frictionloss`. -/
def Joint.wellKeyed (j : Joint) : Bool :=
  !(hasProp j.properties "friction" && !(hasProp j.properties "frictionloss"))

/-- `add_joint` (lines 191-218): comment plus one joint node; a FIXED joint
prints a warning and gets type `free`. `none` models the `KeyError` raised
by the pass-through loop. -/
def add_joint (joint : Joint) (st : St) : Option (St × List Node) :=
  let st1 : St :=
    if joint.joint_type == .FIXED then
      ⟨st.meshes, st.materials, st.warnings ++ [fixedJointWarning]⟩
    else st
  (passThroughAttrs joint.properties jointPassKeys).map (fun attrs =>
    (st1,
     [.raw ("<!-- Joint from " ++ joint.parent.name ++ " to " ++ joint.child.name ++ " -->"),
      .jointNode joint.name (jointTypeStr joint.joint_type) attrs]))

/-- `add_frame` (lines 220-233): comment plus one site node positioned by
`inv(T_world_link) @ T_world_frame`. -/
def add_frame (frame : String) (T_world_link T_world_frame : Mat4) : List Node :=
  [.raw ("<!-- Frame " ++ frame ++ " (dummy link + fixed joint) -->"),
   .siteNode frame (pos_quat (mmul (minv T_world_link) T_world_frame))]

/-- The frames loop of `add_link` (lines 274-276). -/
def add_frames (link : Link) (T_world_link : Mat4) : List Node :=
  link.frames.flatMap (fun fr => add_frame fr.1 T_world_link fr.2)

/-- The parts loop of `add_link` (lines 263-272): per part a comment, the
visual-class geometries (with the collision policy when `drawCollisions` is
set) and the collision-class geometries. -/
def add_parts (cfg : ExporterCfg) (T_world_link : Mat4) :
    List Part → St → St × List Node
  | [], st => (st, [])
  | part :: rest, st =>
    let r1 :=
      add_geometries cfg part T_world_link "visual"
        (if cfg.draw_collisions then "collision" else "visual") st
    let r2 := add_geometries cfg part T_world_link "collision" "collision" r1.1
    let r3 := add_parts cfg T_world_link rest r2.1
    (r3.1, (.raw ("<!-- Part " ++ part.name ++ " -->") :: r1.2 ++ r2.2) ++ r3.2)

/-- `T_world_link` of a visited link (lines 245-248): identity for the base
link (no incoming joint), else the transform carried by the incoming joint. -/
def T_world_of : Option Joint → Mat4
  | none => 1
  | some j => j.T_world_joint

/-- The joint emission step of `add_link` (lines 254-257): the base link gets
a free joint named `root`, other links their incoming joint. -/
def joint_emission (pj : Option Joint) (st : St) : Option (St × List Node) :=
  match pj with
  | none => some (st, [.freejoint "root"])
  | some j => add_joint j st

/-- The `for joint in robot.get_link_joints(link)` recursion of `add_link`
(lines 278-280), threading the accumulator state and concatenating child
subtrees; `f` is the recursive call at the remaining fuel. -/
def children_pass (f : Joint → St → Option (St × List Node)) :
    List Joint → St → Option (St × List Node)
  | [], st => some (st, [])
  | j :: js, st =>
    match f j st with
    | none => none
    | some (st1, n1) =>
      match children_pass f js st1 with
      | none => none
      | some (st2, n2) => some (st2, n1 ++ n2)

/-- `add_link` (lines 235-282), with explicit fuel modelling Python's
unbounded recursion: open a body positioned by
`inv(T_world_parent) @ T_world_link`, emit the joint, the inertial node, the
part geometries and the frames, recurse into the children joints, close the
body. -/
def add_link (cfg : ExporterCfg) (r : Robot) :
    Nat → Link → Option Joint → Mat4 → St → Option (St × List Node)
  | 0, _, _, _, _ => none
  | fuel+1, link, parent_joint, T_world_parent, st =>
    let T_world_link := T_world_of parent_joint
    let hd : List Node :=
      [.raw ("<!-- Link " ++ link.name ++ " -->"),
       .bodyOpen link.name (pos_quat (mmul (minv T_world_parent) T_world_link))]
    match joint_emission parent_joint st with
    | none => none
    | some (st1, jn) =>
      let dyn := link.dynamics T_world_link
      let inert := add_inertial dyn.1 dyn.2.1 dyn.2.2
      let parts := add_parts cfg T_world_link link.parts st1
      let fr := add_frames link T_world_link
      match children_pass (fun j st2 => add_link cfg r fuel j.child (some j) T_world_link st2)
          (r.get_link_joints link) parts.1 with
      | none => none
      | some (st3, cn) =>
        some (st3, hd ++ jn ++ inert ++ parts.2 ++ fr ++ cn ++ [.bodyClose])

/-- The actuator kind (line 88): the joint's `type` property, default
`position`. -/
def actKind (joint : Joint) : String :=
  match getProp joint.properties "type" with
  | some v => v.fmt
  | none => "position"

/-- The body of the `add_actuators` loop for one joint (lines 86-102):
emitted when the `actuated` property is absent or truthy; gain
pass-throughs; symmetric `forcerange` from `effort`; `ctrlrange` from the
limits when the kind is `position`. -/
def actuator_for (joint : Joint) : List Node :=
  if (match getProp joint.properties "actuated" with
      | some v => v.truthy
      | none => true) then
    let kind := actKind joint
    let gains := ["class", "kp", "kd", "ki"].filterMap
      (fun k => (getProp joint.properties k).map (fun v => (k, v.fmt)))
    let fr := match getProp joint.properties "effort" with
      | some v => [("forcerange", "-" ++ v.fmt ++ " " ++ v.fmt)]
      | none => []
    let cr := match joint.limits with
      | some lim =>
          if kind == "position" then [("ctrlrange", ratStr lim.1 ++ " " ++ ratStr lim.2)]
          else []
      | none => []
    [.actuatorNode kind joint.name joint.name (gains ++ fr ++ cr)]
  else []

/-- `add_actuators` (lines 83-104). -/
def add_actuators (robot : Robot) : List Node :=
  .raw "<actuator>" :: robot.joints.flatMap actuator_for ++ [.raw "</actuator>"]

/-- The asset section of `build` (lines 69-75): one mesh declaration per
distinct registered mesh file (Python `set`, modelled by `dedup`), then the
materials in dict order with fixed alpha 1. -/
def asset_section (meshes : List String) (materials : List (String × Vec3)) :
    List Node :=
  .raw "<asset>" ::
    (meshes.dedup.map Node.meshAsset ++
     materials.map (fun m => Node.materialAsset m.1 m.2) ++
     [.raw "</asset>"])

/-- The boilerplate lines emitted by `build` before the worldbody
(lines 40-63). -/
def preamble_lines (cfg : ExporterCfg) (robot : Robot) : List String :=
  ["<?xml version=\"1.0\" ?>",
   "<!-- Generated using onshape-to-robot -->"] ++
  (match cfg.config_comment with
   | some v => ["<!-- OnShape " ++ v ++ " -->"]
   | none => []) ++
  ["<mujoco model=\"" ++ robot.name ++ "\">",
   "<compiler angle=\"radian\" meshdir=\".\" />",
   "<option noslip_iterations=\"1\"></option>"] ++
  (if cfg.additional_xml == "" then [] else [cfg.additional_xml]) ++
  ["<default>",
   "<joint frictionloss=\"0.1\" armature=\"0.005\"/>",
   "<position kp=\"50\" kv=\"5\"/>",
   "<default class=\"visual\">",
   "<geom type=\"mesh\" contype=\"0\" conaffinity=\"0\" group=\"2\"/>",
   "</default>",
   "<default class=\"collision\">",
   "<geom group=\"3\"/>",
   "</default>",
   "</default>",
   "<worldbody>"]

/-- The boilerplate emitted by `build` before the worldbody (lines 40-63). -/
def build_preamble (cfg : ExporterCfg) (robot : Robot) : List Node :=
  (preamble_lines cfg robot).map Node.raw

/-- `build` (lines 38-81): `self.xml` is reset to empty (the returned node
list is exactly this call's output), but the accumulator state `st` carries
over from the instance — `build` does not reset `meshes`/`materials`. -/
def build (cfg : ExporterCfg) (fuel : Nat) (robot : Robot) (st : St) :
    Option (St × List Node) :=
  match add_link cfg robot fuel robot.get_base_link none 1 st with
  | none => none
  | some (st1, body) =>
    some (st1,
      build_preamble cfg robot ++ body ++ [.raw "</worldbody>"] ++
      asset_section st1.meshes st1.materials ++ add_actuators robot ++
      [.raw "</mujoco>"])

/-- Total projection of a `build` result (default never used when the call
succeeds). -/
def buildOut (cfg : ExporterCfg) (fuel : Nat) (robot : Robot) (st : St) :
    St × List Node :=
  (build cfg fuel robot st).getD (st, [])

/-- Total projection of an `add_link` result (default never used when the
call succeeds). -/
def addLinkOut (cfg : ExporterCfg) (r : Robot) (fuel : Nat) (link : Link)
    (pj : Option Joint) (Twp : Mat4) (st : St) : St × List Node :=
  (add_link cfg r fuel link pj Twp st).getD (st, [])

/-! ## Document observations

Functions reading the structure of an emitted node list; used to state the
claims. -/

/-- Nesting contribution of one node: body elements open and close, every
other node is depth-neutral. -/
def openCloseDelta : Node → Int
  | .bodyOpen _ _ => 1
  | .bodyClose => -1
  | _ => 0

/-- Net body-nesting balance of a node list. -/
def bal (l : List Node) : Int := (l.map openCloseDelta).sum

/-- The body elements of a node list with the nesting depth at which each
opens, starting from depth `D`, in document order. -/
def opensAt : List Node → Int → List (String × Int)
  | [], _ => []
  | n :: rest, D =>
    (match n with
     | .bodyOpen nm _ => [(nm, D)]
     | _ => []) ++ opensAt rest (D + openCloseDelta n)

/-- A node that neither opens nor closes a body element. -/
def bodyNeutral : Node → Bool
  | .bodyOpen _ _ => false
  | .bodyClose => false
  | _ => true

/-- Recognize the body element of a given link name. -/
def isBodyOpenNamed (nm : String) : Node → Bool
  | .bodyOpen x _ => x == nm
  | _ => false

/-- Recognize a geometry node carrying the `visual` class. -/
def isVisualGeom : Node → Bool
  | .geomMesh cls _ _ _ => cls == "visual"
  | .geomBox cls _ _ _ => cls == "visual"
  | .geomCylinder cls _ _ _ _ => cls == "visual"
  | .geomSphere cls _ _ _ => cls == "visual"
  | _ => false

/-- Recognize any geometry node (mesh or primitive). -/
def isGeom : Node → Bool
  | .geomMesh _ _ _ _ => true
  | .geomBox _ _ _ _ => true
  | .geomCylinder _ _ _ _ _ => true
  | .geomSphere _ _ _ _ => true
  | _ => false

/-- Recognize the mesh asset declaration of a given file. -/
def isMeshAssetOf (m : String) : Node → Bool
  | .meshAsset f => f == m
  | _ => false

/-- The first inertial node of a node list: its position, mass and the
`fullinertia` entries in emission order. -/
def firstInertial (l : List Node) : Option (Vec3 × ℚ × List ℚ) :=
  l.findSome? (fun n =>
    match n with
    | .inertialNode p m fi => some (p, m, fi)
    | _ => none)

/-! ## The reference traversal skeleton

`visit J fuel x D` is the list of `(link name, nesting depth)` pairs the
tree walk reaches from `x`, in traversal order, starting at depth `D`;
`some` exactly when the joint graph unfolds into a finite tree below `x`
within the fuel. `visit J fuel base 0 = some out` together with `out`
covering every link name exactly once is how "the joint set forms a tree
rooted at the base link" is stated. -/

/-- Forest step of `visit`, mirroring `children_pass`. -/
def visit_children (g : String → Int → Option (List (String × Int))) :
    List Joint → Int → Option (List (String × Int))
  | [], _ => some []
  | j :: js, D =>
    match g j.child.name D with
    | none => none
    | some o1 =>
      match visit_children g js D with
      | none => none
      | some o2 => some (o1 ++ o2)

/-- The traversal skeleton, with the same fuel discipline as `add_link`. -/
def visit (J : List Joint) : Nat → String → Int → Option (List (String × Int))
  | 0, _, _ => none
  | fuel+1, x, D =>
    (visit_children (fun y E => visit J fuel y E) (childrenOf J x) (D+1)).map
      (fun out => (x, D) :: out)

/-! ## Concrete models used by witnesses and counterexamples -/

/-- A trivial dynamics accessor. -/
def dyn0 : Mat4 → ℚ × Vec3 × Mat3 := fun _ => (0, fun _ => 0, fun _ _ => 0)

/-- A gray color. -/
def colorGray : Vec3 := fun _ => 1/2

/-- A part referencing only a mesh, no explicit shapes. -/
def meshPart (nm file : String) : Part := ⟨nm, some file, none, colorGray, 1⟩

/-- A link with the given parts, no frames, trivial dynamics. -/
def bareLink (nm : String) (parts : List Part) : Link := ⟨nm, parts, [], dyn0⟩

/-- One-link robot whose only part references a mesh. -/
def rMeshOnly : Robot :=
  ⟨"r", [bareLink "l0" [meshPart "p0" "m.stl"]], [], bareLink "l0" [meshPart "p0" "m.stl"]⟩

/-- Robot whose only part references mesh `a.stl`. -/
def rA : Robot :=
  ⟨"ra", [bareLink "l0" [meshPart "p0" "a.stl"]], [], bareLink "l0" [meshPart "p0" "a.stl"]⟩

/-- Robot whose only part references mesh `b.stl`. -/
def rB : Robot :=
  ⟨"rb", [bareLink "l0" [meshPart "p0" "b.stl"]], [], bareLink "l0" [meshPart "p0" "b.stl"]⟩

/-- The default exporter configuration (no config file). -/
def cfg0 : ExporterCfg := {}

/-- Exporter configuration with shapes-only mode enabled. -/
def cfgShapesOnly : ExporterCfg := { collision_shapes_only := true }

/-- A revolute joint with the given properties and no limits, between two
bare links. -/
def mkJoint (nm : String) (t : JointType) (pname cname : String)
    (props : List (String × PropVal)) (lims : Option (ℚ × ℚ)) : Joint :=
  ⟨nm, t, bareLink pname [], bareLink cname [], 1, props, lims⟩

/-- Two-link robot: base `l0`, revolute joint `j1` to `l1`. -/
def rTwo : Robot :=
  ⟨"r2", [bareLink "l0" [], bareLink "l1" []],
   [mkJoint "j1" .REVOLUTE "l0" "l1" [] none],
   bareLink "l0" []⟩

/-- FIXED joint whose properties hold `friction` but not `frictionloss`. -/
def jFixedBad : Joint := mkJoint "jfb" .FIXED "p" "c" [("friction", .n 1)] none

/-- FIXED joint with an empty property mapping. -/
def jFixedOk : Joint := mkJoint "jfo" .FIXED "p" "c" [] none

/-- Revolute joint with `friction` but no `frictionloss`. -/
def jFrOnly : Joint := mkJoint "jf1" .REVOLUTE "p" "c" [("friction", .n 1)] none

/-- Revolute joint with both `friction` and `frictionloss`. -/
def jFrBoth : Joint :=
  mkJoint "jf2" .REVOLUTE "p" "c" [("friction", .n 1), ("frictionloss", .n 2)] none

/-- Actuated joint: `actuated` absent, `effort` 10, limits `(-1, 2)`. -/
def jAct : Joint := mkJoint "ja" .REVOLUTE "l0" "l1" [("effort", .n 10)] (some (-1, 2))

/-- Joint with `actuated` explicitly false. -/
def jNoAct : Joint := mkJoint "jn" .REVOLUTE "l0" "l1" [("actuated", .b false)] none

/-- Robot holding the two actuator test joints. -/
def rAct : Robot := ⟨"ract", [bareLink "l0" []], [jAct, jNoAct], bareLink "l0" []⟩

/-- A part declaring a single box shape of size `(2, 2, 2)`. -/
def boxPart : Part := ⟨"pb", none, some [.Box 1 (fun _ => 2)], colorGray, 1⟩

/-- Inertia tensor with diagonal `(1, 2, 3)` and off-diagonals
`(0.1, 0.2, 0.3)`. -/
def inertiaW : Mat3 := fun i j =>
  match i.val, j.val with
  | 0, 0 => 1
  | 1, 1 => 2
  | 2, 2 => 3
  | 0, 1 => 1/10
  | 1, 0 => 1/10
  | 0, 2 => 1/5
  | 2, 0 => 1/5
  | _, _ => 3/10

/-- Center of mass `(0, 0, 0.1)`. -/
def comW : Vec3 := fun i => match i.val with
  | 2 => 1/10
  | _ => 0

/-- A link whose dynamics accessor returns mass 5, `comW` and `inertiaW`. -/
def linkDynW : Link := ⟨"ld", [], [], fun _ => (5, comW, inertiaW)⟩

/-- One-link robot carrying `linkDynW`. -/
def rDynW : Robot := ⟨"rd", [linkDynW], [], linkDynW⟩

/-- A robot whose joint set forms a tree rooted at the base link, but whose
single joint holds `friction` without `frictionloss`. -/
def rBadTree : Robot :=
  ⟨"rbad", [bareLink "l0" [], bareLink "l1" []],
   [mkJoint "jb" .REVOLUTE "l0" "l1" [("friction", .n 1)] none],
   bareLink "l0" []⟩

/-! ## Structural lemmas about `bal` and `opensAt` -/

theorem bal_nil : bal [] = 0 := rfl

theorem bal_cons (n : Node) (l : List Node) :
    bal (n :: l) = openCloseDelta n + bal l := by
  simp [bal]

theorem bal_append (a b : List Node) : bal (a ++ b) = bal a + bal b := by
  simp [bal]

theorem opensAt_append (a b : List Node) (D : Int) :
    opensAt (a ++ b) D = opensAt a D ++ opensAt b (D + bal a) := by
  induction a generalizing D with
  | nil => simp [opensAt, bal_nil]
  | cons n rest ih =>
    simp only [List.cons_append, opensAt, bal_cons, List.append_assoc,
      List.append_eq, ih, Int.add_assoc]

theorem openCloseDelta_of_neutral {n : Node} (h : bodyNeutral n = true) :
    openCloseDelta n = 0 := by
  cases n <;> first
  | rfl
  | simp [bodyNeutral] at h

theorem bal_neutral {l : List Node} (h : ∀ n ∈ l, bodyNeutral n = true) :
    bal l = 0 := by
  induction l with
  | nil => rfl
  | cons n rest ih =>
    rw [bal_cons, openCloseDelta_of_neutral (h n (List.mem_cons_self _ _)),
      ih (fun m hm => h m (List.mem_cons_of_mem _ hm))]
    rfl

theorem opensAt_neutral {l : List Node} (h : ∀ n ∈ l, bodyNeutral n = true)
    (D : Int) : opensAt l D = [] := by
  induction l generalizing D with
  | nil => rfl
  | cons n rest ih =>
    have hn := h n (List.mem_cons_self _ _)
    have hr := ih (fun m hm => h m (List.mem_cons_of_mem _ hm))
    cases n <;> simp [opensAt, hr] <;> simp [bodyNeutral] at hn

/-- `opensAt` enumerates exactly the body elements of the list. -/
theorem countP_opensAt (nm : String) (l : List Node) (D : Int) :
    l.countP (isBodyOpenNamed nm) =
      (opensAt l D).countP (fun p => p.1 == nm) := by
  induction l generalizing D with
  | nil => rfl
  | cons n rest ih =>
    cases n <;>
      simp [opensAt, openCloseDelta, isBodyOpenNamed, List.countP_cons, ← ih]

/-! ## Neutrality of the non-body emission chunks -/

theorem add_mesh_neutral (part : Part) (class_ : String) (T : Mat4) (st : St) :
    ∀ n ∈ (add_mesh part class_ T st).2, bodyNeutral n = true := by
  intro n hn
  rcases hn with _ | ⟨_, h⟩
  · rfl
  · rcases h with _ | ⟨_, h⟩
    · rfl
    · cases h

theorem shapesLoop_neutral (part : Part) (class_ : String) (T : Mat4) :
    ∀ (ss : List Shape) (st : St), ∀ n ∈ (shapesLoop part class_ T ss st).2,
      bodyNeutral n = true := by
  intro ss
  induction ss with
  | nil => intro st n hn; cases hn
  | cons s rest ih =>
    intro st n hn
    rcases hn with _ | ⟨_, hn⟩
    · cases s <;> rfl
    · exact ih _ n hn

theorem add_geometries_neutral (cfg : ExporterCfg) (part : Part) (T : Mat4)
    (class_ what : String) (st : St) :
    ∀ n ∈ (add_geometries cfg part T class_ what st).2, bodyNeutral n = true := by
  intro n hn
  unfold add_geometries at hn
  split at hn
  · exact shapesLoop_neutral part class_ T _ st n hn
  · split at hn
    · exact add_mesh_neutral part class_ T st n hn
    · cases hn

theorem add_parts_neutral (cfg : ExporterCfg) (T : Mat4) :
    ∀ (ps : List Part) (st : St), ∀ n ∈ (add_parts cfg T ps st).2,
      bodyNeutral n = true := by
  intro ps
  induction ps with
  | nil => intro st n hn; cases hn
  | cons part rest ih =>
    intro st n hn
    rcases List.mem_append.mp hn with hn | hn
    · rcases hn with _ | ⟨_, hn⟩
      · rfl
      · rcases List.mem_append.mp hn with hn | hn
        · exact add_geometries_neutral cfg part T _ _ st n hn
        · exact add_geometries_neutral cfg part T _ _ _ n hn
    · exact ih _ n hn

theorem add_frames_neutral (link : Link) (T : Mat4) :
    ∀ n ∈ add_frames link T, bodyNeutral n = true := by
  intro n hn
  rcases List.mem_flatMap.mp hn with ⟨fr, _, hn⟩
  rcases hn with _ | ⟨_, hn⟩
  · rfl
  · rcases hn with _ | ⟨_, hn⟩
    · rfl
    · cases hn

theorem add_joint_neutral {j : Joint} {st : St} {p : St × List Node}
    (h : add_joint j st = some p) : ∀ n ∈ p.2, bodyNeutral n = true := by
  unfold add_joint at h
  cases hpa : passThroughAttrs j.properties jointPassKeys with
  | none => rw [hpa] at h; cases h
  | some attrs =>
    rw [hpa] at h
    cases h
    intro n hn
    rcases hn with _ | ⟨_, hn⟩
    · rfl
    · rcases hn with _ | ⟨_, hn⟩
      · rfl
      · cases hn

theorem joint_emission_neutral {pj : Option Joint} {st : St} {p : St × List Node}
    (h : joint_emission pj st = some p) : ∀ n ∈ p.2, bodyNeutral n = true := by
  cases pj with
  | none =>
    cases h
    intro n hn
    rcases hn with _ | ⟨_, hn⟩
    · rfl
    · cases hn
  | some j => exact add_joint_neutral h

theorem add_inertial_neutral (mass : ℚ) (com : Vec3) (inertia : Mat3) :
    ∀ n ∈ add_inertial mass com inertia, bodyNeutral n = true := by
  intro n hn
  rcases hn with _ | ⟨_, hn⟩
  · rfl
  · cases hn

theorem build_preamble_neutral (cfg : ExporterCfg) (robot : Robot) :
    ∀ n ∈ build_preamble cfg robot, bodyNeutral n = true := by
  intro n hn
  rcases List.mem_map.mp hn with ⟨s, _, rfl⟩
  rfl

theorem asset_section_neutral (meshes : List String)
    (materials : List (String × Vec3)) :
    ∀ n ∈ asset_section meshes materials, bodyNeutral n = true := by
  intro n hn
  rcases hn with _ | ⟨_, hn⟩
  · rfl
  · rcases List.mem_append.mp hn with hn | hn
    · rcases List.mem_append.mp hn with hn | hn
      · rcases List.mem_map.mp hn with ⟨s, _, rfl⟩; rfl
      · rcases List.mem_map.mp hn with ⟨m, _, rfl⟩; rfl
    · rcases hn with _ | ⟨_, hn⟩
      · rfl
      · cases hn

theorem actuator_for_neutral (j : Joint) :
    ∀ n ∈ actuator_for j, bodyNeutral n = true := by
  intro n hn
  unfold actuator_for at hn
  split at hn
  · rcases hn with _ | ⟨_, hn⟩
    · rfl
    · cases hn
  · cases hn

theorem add_actuators_neutral (robot : Robot) :
    ∀ n ∈ add_actuators robot, bodyNeutral n = true := by
  intro n hn
  rcases hn with _ | ⟨_, hn⟩
  · rfl
  · rcases List.mem_append.mp hn with hn | hn
    · rcases List.mem_flatMap.mp hn with ⟨j, _, hn⟩
      exact actuator_for_neutral j n hn
    · rcases hn with _ | ⟨_, hn⟩
      · rfl
      · cases hn

/-! ## Success conditions of the fallible steps -/

theorem passThrough_isSome {props : List (String × PropVal)}
    (hwk : (!(hasProp props "friction" && !hasProp props "frictionloss")) = true) :
    ∀ ks : List String, (passThroughAttrs props ks).isSome = true := by
  intro ks
  induction ks with
  | nil => rfl
  | cons key rest ih =>
    by_cases hk : hasProp props key = true
    · by_cases hf : key = "friction"
      · subst hf
        have hfl : hasProp props "frictionloss" = true := by
          cases hfl : hasProp props "frictionloss"
          · rw [hk, hfl] at hwk; simp at hwk
          · rfl
        obtain ⟨v, hv⟩ := Option.isSome_iff_exists.mp hfl
        simp [passThroughAttrs, hk, hv, ih]
      · obtain ⟨v, hv⟩ := Option.isSome_iff_exists.mp hk
        simp [passThroughAttrs, hk, hf, hv, ih]
    · simp [passThroughAttrs, hk, ih]

theorem add_joint_some {j : Joint} (hwk : j.wellKeyed = true) (st : St) :
    ∃ p, add_joint j st = some p := by
  obtain ⟨attrs, ha⟩ :=
    Option.isSome_iff_exists.mp (passThrough_isSome hwk jointPassKeys)
  exact ⟨_, by unfold add_joint; rw [ha]; rfl⟩

theorem joint_emission_some (pj : Option Joint) (st : St)
    (h : ∀ j, pj = some j → j.wellKeyed = true) :
    ∃ p, joint_emission pj st = some p := by
  cases pj with
  | none => exact ⟨_, rfl⟩
  | some j => exact add_joint_some (h j rfl) st

/-! ## The shape of a successful `add_link` call -/

theorem add_link_some_shape {cfg : ExporterCfg} {r : Robot} {fuel : Nat}
    {link : Link} {pj : Option Joint} {Twp : Mat4} {st : St} {p : St × List Node}
    (h : add_link cfg r (fuel+1) link pj Twp st = some p) :
    ∃ st1 jn q,
      joint_emission pj st = some (st1, jn) ∧
      children_pass
        (fun j st2 => add_link cfg r fuel j.child (some j) (T_world_of pj) st2)
        (r.get_link_joints link) (add_parts cfg (T_world_of pj) link.parts st1).1
        = some q ∧
      p = (q.1,
        [Node.raw ("<!-- Link " ++ link.name ++ " -->"),
         Node.bodyOpen link.name (pos_quat (mmul (minv Twp) (T_world_of pj)))] ++
        jn ++
        add_inertial (link.dynamics (T_world_of pj)).1
          (link.dynamics (T_world_of pj)).2.1 (link.dynamics (T_world_of pj)).2.2 ++
        (add_parts cfg (T_world_of pj) link.parts st1).2 ++
        add_frames link (T_world_of pj) ++ q.2 ++ [Node.bodyClose]) := by
  rw [add_link] at h
  cases hje : joint_emission pj st with
  | none => rw [hje] at h; cases h
  | some sp =>
    obtain ⟨st1, jn⟩ := sp
    rw [hje] at h
    dsimp only at h
    cases hcp : children_pass
        (fun j st2 => add_link cfg r fuel j.child (some j) (T_world_of pj) st2)
        (r.get_link_joints link) (add_parts cfg (T_world_of pj) link.parts st1).1 with
    | none => rw [hcp] at h; cases h
    | some q =>
      rw [hcp] at h
      cases h
      exact ⟨st1, jn, q, rfl, hcp, by simp⟩

/-- `opensAt` and `bal` of one assembled body: the chunks between the body
element and its children contribute nothing, the children contribute their
own body elements one level deeper. -/
theorem opensAt_wrap (nm : String) (pq : PosQuat) (s : String)
    (jn inert parts fr cn : List Node) (D : Int) (outc : List (String × Int))
    (hjn : ∀ n ∈ jn, bodyNeutral n = true)
    (hinert : ∀ n ∈ inert, bodyNeutral n = true)
    (hparts : ∀ n ∈ parts, bodyNeutral n = true)
    (hfr : ∀ n ∈ fr, bodyNeutral n = true)
    (hcn : opensAt cn (D+1) = outc) (hbcn : bal cn = 0) :
    opensAt ([Node.raw s, Node.bodyOpen nm pq] ++ jn ++ inert ++ parts ++ fr ++
      cn ++ [Node.bodyClose]) D = (nm, D) :: outc ∧
    bal ([Node.raw s, Node.bodyOpen nm pq] ++ jn ++ inert ++ parts ++ fr ++
      cn ++ [Node.bodyClose]) = 0 := by
  have bhd : bal [Node.raw s, Node.bodyOpen nm pq] = 1 := by
    simp [bal, openCloseDelta]
  have ohd : opensAt [Node.raw s, Node.bodyOpen nm pq] D = [(nm, D)] := by
    simp [opensAt, openCloseDelta]
  constructor
  · simp only [opensAt_append, bal_append, bhd, bal_neutral hjn,
      bal_neutral hinert, bal_neutral hparts, bal_neutral hfr, hbcn, ohd,
      opensAt_neutral hjn, opensAt_neutral hinert, opensAt_neutral hparts,
      opensAt_neutral hfr, Int.add_zero, hcn]
    simp [opensAt]
  · simp only [bal_append, bhd, bal_neutral hjn, bal_neutral hinert,
      bal_neutral hparts, bal_neutral hfr, hbcn]
    simp [bal, openCloseDelta]

/-- The core traversal theorem: whenever the reference skeleton `visit`
succeeds from a link, `add_link` succeeds with the same fuel (given that
every joint survives the pass-through loop), its body elements are exactly
the skeleton's `(name, depth)` list, and its body nesting is balanced. -/
theorem add_link_skeleton (cfg : ExporterCfg) (r : Robot)
    (hwk : r.joints.all Joint.wellKeyed = true) :
    ∀ (fuel : Nat) (link : Link) (pj : Option Joint) (D : Int)
      (out : List (String × Int)) (Twp : Mat4) (st : St),
      (∀ j, pj = some j → j ∈ r.joints) →
      visit r.joints fuel link.name D = some out →
      ∃ p, add_link cfg r fuel link pj Twp st = some p ∧
        opensAt p.2 D = out ∧ bal p.2 = 0 := by
  intro fuel
  induction fuel with
  | zero => intro link pj D out Twp st _ hv; cases hv
  | succ fuel ih =>
    intro link pj D out Twp st hpj hv
    rw [visit] at hv
    obtain ⟨outc, hvc, houtc⟩ : ∃ outc,
        visit_children (fun y E => visit r.joints fuel y E)
          (childrenOf r.joints link.name) (D+1) = some outc ∧
        out = (link.name, D) :: outc := by
      cases hvcase : visit_children (fun y E => visit r.joints fuel y E)
          (childrenOf r.joints link.name) (D+1) with
      | none => rw [hvcase] at hv; cases hv
      | some oc => rw [hvcase] at hv; cases hv; exact ⟨oc, rfl, rfl⟩
    subst houtc
    have hwj : ∀ j, pj = some j → j.wellKeyed = true := fun j hj =>
      List.all_eq_true.mp hwk j (hpj j hj)
    obtain ⟨jp, hje⟩ := joint_emission_some pj st hwj
    obtain ⟨st1, jn⟩ := jp
    have hjn := joint_emission_neutral hje
    have hch : ∀ (js : List Joint), (∀ j ∈ js, j ∈ r.joints) →
        ∀ (D2 : Int) (oc : List (String × Int)) (st2 : St),
          visit_children (fun y E => visit r.joints fuel y E) js D2 = some oc →
          ∃ q, children_pass
              (fun j st3 => add_link cfg r fuel j.child (some j) (T_world_of pj) st3)
              js st2 = some q ∧ opensAt q.2 D2 = oc ∧ bal q.2 = 0 := by
      intro js
      induction js with
      | nil =>
        intro _ D2 oc st2 hoc
        cases hoc
        exact ⟨(st2, []), rfl, rfl, rfl⟩
      | cons j js ihj =>
        intro hsub D2 oc st2 hoc
        cases h1 : visit r.joints fuel j.child.name D2 with
        | none => rw [visit_children, h1] at hoc; cases hoc
        | some o1 =>
          cases h2 : visit_children (fun y E => visit r.joints fuel y E) js D2 with
          | none => rw [visit_children, h1, h2] at hoc; cases hoc
          | some o2 =>
            rw [visit_children, h1, h2] at hoc
            cases hoc
            obtain ⟨p1, hp1, ho1, hb1⟩ :=
              ih j.child (some j) D2 o1 (T_world_of pj) st2
                (fun j2 hj2 => by
                  cases hj2
                  exact hsub j (List.mem_cons_self _ _)) h1
            obtain ⟨st3, n1⟩ := p1
            obtain ⟨p2, hp2, ho2, hb2⟩ :=
              ihj (fun m hm => hsub m (List.mem_cons_of_mem _ hm)) D2 o2 st3 h2
            obtain ⟨st4, n2⟩ := p2
            refine ⟨(st4, n1 ++ n2), ?_, ?_, ?_⟩
            · simp only [children_pass, hp1, hp2]
            · rw [opensAt_append, hb1, Int.add_zero, ho1, ho2]
            · rw [bal_append, hb1, hb2]; rfl
    obtain ⟨q, hq, hoq, hbq⟩ :=
      hch (childrenOf r.joints link.name)
        (fun j hj => List.mem_of_mem_filter hj)
        (D+1) outc (add_parts cfg (T_world_of pj) link.parts st1).1 hvc
    obtain ⟨st3, cn⟩ := q
    obtain ⟨hopen, hbal⟩ := opensAt_wrap link.name
      (pos_quat (mmul (minv Twp) (T_world_of pj)))
      ("<!-- Link " ++ link.name ++ " -->") jn
      (add_inertial (link.dynamics (T_world_of pj)).1
        (link.dynamics (T_world_of pj)).2.1 (link.dynamics (T_world_of pj)).2.2)
      (add_parts cfg (T_world_of pj) link.parts st1).2
      (add_frames link (T_world_of pj)) cn D outc hjn
      (add_inertial_neutral _ _ _)
      (add_parts_neutral cfg (T_world_of pj) link.parts st1)
      (add_frames_neutral link (T_world_of pj)) hoq hbq
    refine ⟨(st3,
      [Node.raw ("<!-- Link " ++ link.name ++ " -->"),
       Node.bodyOpen link.name (pos_quat (mmul (minv Twp) (T_world_of pj)))] ++
      jn ++
      add_inertial (link.dynamics (T_world_of pj)).1
        (link.dynamics (T_world_of pj)).2.1 (link.dynamics (T_world_of pj)).2.2 ++
      (add_parts cfg (T_world_of pj) link.parts st1).2 ++
      add_frames link (T_world_of pj) ++ cn ++ [Node.bodyClose]), ?_, hopen, hbal⟩
    rw [add_link, hje]
    dsimp only
    rw [show r.get_link_joints link = childrenOf r.joints link.name from rfl, hq]

/-! ## Build-level structure -/

/-- Any successful `build` splits into preamble, traversal output, asset
section over the final accumulator state, actuator section and closing tag. -/
theorem build_decomp {cfg : ExporterCfg} {fuel : Nat} {r : Robot} {st : St}
    {p : St × List Node} (h : build cfg fuel r st = some p) :
    ∃ body, add_link cfg r fuel r.get_base_link none 1 st = some (p.1, body) ∧
      p.2 = build_preamble cfg r ++ body ++ [Node.raw "</worldbody>"] ++
        asset_section p.1.meshes p.1.materials ++ add_actuators r ++
        [Node.raw "</mujoco>"] := by
  rw [build] at h
  cases hal : add_link cfg r fuel r.get_base_link none 1 st with
  | none => rw [hal] at h; cases h
  | some q =>
    obtain ⟨st1, body⟩ := q
    rw [hal] at h
    cases h
    exact ⟨body, rfl, rfl⟩

/-- When the reference skeleton succeeds from the base link, `build` succeeds
and the document's body elements are exactly the skeleton output. -/
theorem build_opens (cfg : ExporterCfg) (r : Robot) (fuel : Nat)
    (out : List (String × Int)) (st : St)
    (hwk : r.joints.all Joint.wellKeyed = true)
    (hv : visit r.joints fuel r.base_link.name 0 = some out) :
    ∃ p, build cfg fuel r st = some p ∧ opensAt p.2 0 = out := by
  obtain ⟨p, hp, ho, hb⟩ :=
    add_link_skeleton cfg r hwk fuel r.base_link none 0 out 1 st
      (fun j h => by cases h) hv
  obtain ⟨st1, body⟩ := p
  refine ⟨(st1, build_preamble cfg r ++ body ++ [Node.raw "</worldbody>"] ++
      asset_section st1.meshes st1.materials ++ add_actuators r ++
      [Node.raw "</mujoco>"]), ?_, ?_⟩
  · rw [build, show r.get_base_link = r.base_link from rfl, hp]
  · have hraw1 : ∀ n ∈ [Node.raw "</worldbody>"], bodyNeutral n = true := by
      intro n hn
      rcases hn with _ | ⟨_, hn⟩
      · rfl
      · cases hn
    have hraw2 : ∀ n ∈ [Node.raw "</mujoco>"], bodyNeutral n = true := by
      intro n hn
      rcases hn with _ | ⟨_, hn⟩
      · rfl
      · cases hn
    simp only [opensAt_append, bal_append,
      bal_neutral (build_preamble_neutral cfg r),
      bal_neutral (asset_section_neutral st1.meshes st1.materials),
      bal_neutral (add_actuators_neutral r), bal_neutral hraw1,
      bal_neutral hraw2, hb,
      opensAt_neutral (build_preamble_neutral cfg r),
      opensAt_neutral (asset_section_neutral st1.meshes st1.materials),
      opensAt_neutral (add_actuators_neutral r), opensAt_neutral hraw1,
      opensAt_neutral hraw2, Int.zero_add, Int.add_zero, List.nil_append,
      List.append_nil]
    exact ho

/-- In the flattened asset section, a registered mesh identifier gets exactly
one declaration. -/
theorem asset_section_count (m : String) (ms : List String)
    (mats : List (String × Vec3)) (hm : m ∈ ms) :
    (asset_section ms mats).countP (isMeshAssetOf m) = 1 := by
  have h1 : (ms.dedup.map Node.meshAsset).countP (isMeshAssetOf m) =
      ms.dedup.count m := by
    rw [List.countP_map]
    rfl
  have h2 : (mats.map (fun q => Node.materialAsset q.1 q.2)).countP
      (isMeshAssetOf m) = 0 := by
    rw [List.countP_map]
    apply List.countP_eq_zero.mpr
    intro a _
    simp [isMeshAssetOf, Function.comp]
  simp only [asset_section, List.countP_cons, List.countP_append, h1, h2,
    List.count_dedup, hm, if_pos]
  rfl

/-! ## Claims -/

/-- C5 (amended): for every robot whose joint set forms a tree rooted at the
base link (stated as: the reference skeleton `visit` succeeds from the base
link and its output covers each link name exactly once) AND whose joints all
survive the attribute pass-through (no `friction` key without
`frictionloss`), the export succeeds; the document contains exactly
`K = r.links.length` body elements, each link appearing exactly once, with
each body's nesting depth equal to the link's depth in the tree (the depth
recorded by the skeleton); the traversal visits every reachable body exactly
once and terminates. -/
theorem claim_C5_tree_coverage (cfg : ExporterCfg) (r : Robot) (fuel : Nat)
    (out : List (String × Int)) (st : St)
    (hwk : r.joints.all Joint.wellKeyed = true)
    (hv : visit r.joints fuel r.base_link.name 0 = some out)
    (hperm : List.Perm (out.map Prod.fst) (r.links.map Link.name))
    (hnd : (r.links.map Link.name).Nodup) :
    (build cfg fuel r st).isSome = true ∧
    opensAt (buildOut cfg fuel r st).2 0 = out ∧
    (opensAt (buildOut cfg fuel r st).2 0).length = r.links.length ∧
    ∀ l ∈ r.links,
      (buildOut cfg fuel r st).2.countP (isBodyOpenNamed l.name) = 1 := by
  obtain ⟨p, hp, ho⟩ := build_opens cfg r fuel out st hwk hv
  have hbo : buildOut cfg fuel r st = p := by rw [buildOut, hp]; rfl
  refine ⟨by rw [hp]; rfl, by rw [hbo]; exact ho, ?_, ?_⟩
  · rw [hbo, ho]
    have h1 := hperm.length_eq
    rw [List.length_map, List.length_map] at h1
    exact h1
  · intro l hl
    rw [hbo, countP_opensAt l.name p.2 0, ho]
    have hmapped : List.countP (fun q => q.1 == l.name) out
        = List.countP (fun x => x == l.name) (out.map Prod.fst) := by
      rw [List.countP_map]
      rfl
    rw [hmapped, (List.Perm.countP_eq _ hperm)]
    exact List.count_eq_one_of_mem hnd (List.mem_map_of_mem Link.name hl)

/-- C5 counterexample: `rBadTree`'s joint set forms a tree rooted at the base
link and covers both links exactly once (the skeleton succeeds at the same
fuel, so this is not fuel exhaustion), yet the export aborts — it emits no
document at all, so the claim's unconditional tree-coverage and termination
statement is false as stated. -/
theorem claim_C5_counterexample :
    visit rBadTree.joints 2 rBadTree.base_link.name 0 =
      some [("l0", 0), ("l1", 1)] ∧
    List.Perm ([("l0", (0 : Int)), ("l1", 1)].map Prod.fst)
      (rBadTree.links.map Link.name) ∧
    (rBadTree.links.map Link.name).Nodup ∧
    build cfg0 2 rBadTree stEmpty = none :=
  ⟨by decide, List.Perm.refl _, by decide, rfl⟩

/-- C5 witness: the two-link robot `rTwo` at fuel 2. -/
theorem claim_C5_tree_coverage_witness :
    rTwo.joints.all Joint.wellKeyed = true ∧
    visit rTwo.joints 2 rTwo.base_link.name 0 = some [("l0", 0), ("l1", 1)] ∧
    (build cfg0 2 rTwo stEmpty).isSome = true ∧
    opensAt (buildOut cfg0 2 rTwo stEmpty).2 0 = [("l0", 0), ("l1", 1)] :=
  ⟨by decide, by decide,
   (claim_C5_tree_coverage cfg0 rTwo 2 [("l0", 0), ("l1", 1)] stEmpty
     (by decide) (by decide) (List.Perm.refl _) (by decide)).1,
   (claim_C5_tree_coverage cfg0 rTwo 2 [("l0", 0), ("l1", 1)] stEmpty
     (by decide) (by decide) (List.Perm.refl _) (by decide)).2.1⟩

/-- C8: mesh registration is idempotent — if during one export (from the
fresh constructor state) a mesh identifier ends up registered `N ≥ 1` times,
the flattened asset section of the document contains exactly one mesh
declaration for it; the asset section over the final accumulator state is a
contiguous part of the document. -/
theorem claim_C8_mesh_idempotent (cfg : ExporterCfg) (fuel : Nat) (r : Robot)
    (m : String) (N : Nat)
    (h : (build cfg fuel r stEmpty).isSome = true)
    (hm : (buildOut cfg fuel r stEmpty).1.meshes.count m = N)
    (hN : 1 ≤ N) :
    (asset_section (buildOut cfg fuel r stEmpty).1.meshes
      (buildOut cfg fuel r stEmpty).1.materials).countP (isMeshAssetOf m) = 1 ∧
    ∃ pre post, (buildOut cfg fuel r stEmpty).2 =
      pre ++ asset_section (buildOut cfg fuel r stEmpty).1.meshes
        (buildOut cfg fuel r stEmpty).1.materials ++ post := by
  obtain ⟨p, hp⟩ := Option.isSome_iff_exists.mp h
  have hbo : buildOut cfg fuel r stEmpty = p := by rw [buildOut, hp]; rfl
  rw [hbo] at hm ⊢
  have hmem : m ∈ p.1.meshes := by
    have : 0 < p.1.meshes.count m := by omega
    exact List.count_pos_iff.mp this
  refine ⟨asset_section_count m _ _ hmem, ?_⟩
  obtain ⟨body, _, hdoc⟩ := build_decomp hp
  refine ⟨build_preamble cfg r ++ body ++ [Node.raw "</worldbody>"],
    add_actuators r ++ [Node.raw "</mujoco>"], ?_⟩
  rw [hdoc]
  simp

/-- C8 witness: the one-link mesh robot registers `m.stl` twice (once for the
visual role and once for the collision role) and gets one declaration. -/
theorem claim_C8_mesh_idempotent_witness :
    (build cfg0 1 rMeshOnly stEmpty).isSome = true ∧
    (buildOut cfg0 1 rMeshOnly stEmpty).1.meshes.count "m.stl" = 2 ∧
    (asset_section (buildOut cfg0 1 rMeshOnly stEmpty).1.meshes
      (buildOut cfg0 1 rMeshOnly stEmpty).1.materials).countP
        (isMeshAssetOf "m.stl") = 1 :=
  ⟨by decide, by decide,
   (claim_C8_mesh_idempotent cfg0 1 rMeshOnly "m.stl" 2 (by decide) (by decide)
     (by decide)).1⟩

/-- C6: for every visited body (i.e. every `add_link` call that contributes to
the document), the world transform used is the identity when there is no
incoming joint (the base link) and the incoming joint's transform otherwise,
and the opened body node carries the pose extracted from
`invert(T_world_parent) @ T_world_body`. -/
theorem claim_C6_body_pose (cfg : ExporterCfg) (r : Robot) (fuel : Nat)
    (link : Link) (pj : Option Joint) (Twp : Mat4) (st : St)
    (h : (add_link cfg r fuel link pj Twp st).isSome = true) :
    T_world_of none = (1 : Mat4) ∧
    (∀ j : Joint, T_world_of (some j) = j.T_world_joint) ∧
    ∃ s rest, (addLinkOut cfg r fuel link pj Twp st).2 =
      Node.raw s :: Node.bodyOpen link.name
        (pos_quat (mmul (minv Twp) (T_world_of pj))) :: rest := by
  refine ⟨rfl, fun _ => rfl, ?_⟩
  cases fuel with
  | zero => simp [add_link] at h
  | succ fuel =>
    obtain ⟨p, hp⟩ := Option.isSome_iff_exists.mp h
    obtain ⟨st1, jn, q, hje, hcp, hshape⟩ := add_link_some_shape hp
    have hbo : addLinkOut cfg r (fuel+1) link pj Twp st = p := by
      rw [addLinkOut, hp]; rfl
    rw [hbo, hshape]
    exact ⟨_, _, rfl⟩

/-- C6 witness: the base link of the one-link robot, at the identity parent
transform. -/
theorem claim_C6_body_pose_witness :
    (add_link cfg0 rMeshOnly 1 (bareLink "l0" [meshPart "p0" "m.stl"]) none 1
      stEmpty).isSome = true ∧
    (T_world_of none = (1 : Mat4) ∧
     (∀ j : Joint, T_world_of (some j) = j.T_world_joint) ∧
     ∃ s rest,
       (addLinkOut cfg0 rMeshOnly 1 (bareLink "l0" [meshPart "p0" "m.stl"]) none 1
         stEmpty).2 =
       Node.raw s :: Node.bodyOpen "l0"
         (pos_quat (mmul (minv 1) (T_world_of none))) :: rest) :=
  ⟨by decide,
   claim_C6_body_pose cfg0 rMeshOnly 1 (bareLink "l0" [meshPart "p0" "m.stl"])
     none 1 stEmpty (by decide)⟩

/-- Extract step used by `firstInertial`. -/
theorem firstInertial_cons (n : Node) (l : List Node) :
    firstInertial (n :: l) =
      (match n with
       | Node.inertialNode p m fi => some (p, m, fi)
       | _ => none).orElse (fun _ => firstInertial l) := by
  cases n <;> rfl

/-- Skipping a prefix with no inertial node. -/
theorem firstInertial_append_none {a : List Node} (b : List Node)
    (ha : firstInertial a = none) :
    firstInertial (a ++ b) = firstInertial b := by
  induction a with
  | nil => rfl
  | cons n rest ih =>
    rw [List.cons_append, firstInertial_cons]
    rw [firstInertial_cons] at ha
    cases n <;> simp_all [Option.orElse]

/-- The nodes of a successful `add_joint` call: the comment and one joint
node. -/
theorem add_joint_shape {j : Joint} {st : St} {p : St × List Node}
    (h : add_joint j st = some p) :
    ∃ attrs, p.2 =
      [Node.raw ("<!-- Joint from " ++ j.parent.name ++ " to " ++
        j.child.name ++ " -->"),
       Node.jointNode j.name (jointTypeStr j.joint_type) attrs] := by
  unfold add_joint at h
  cases hpa : passThroughAttrs j.properties jointPassKeys with
  | none => rw [hpa] at h; cases h
  | some attrs =>
    rw [hpa] at h
    cases h
    exact ⟨attrs, rfl⟩

/-- C7: for every visited body, the first inertial node emitted by its
`add_link` call carries the dynamics accessor's center of mass, its mass, and
the six independent inertia entries in the fixed order
`xx, yy, zz, xy, xz, yz`. -/
theorem claim_C7_inertial_order (cfg : ExporterCfg) (r : Robot) (fuel : Nat)
    (link : Link) (pj : Option Joint) (Twp : Mat4) (st : St)
    (h : (add_link cfg r fuel link pj Twp st).isSome = true) :
    firstInertial (addLinkOut cfg r fuel link pj Twp st).2 =
      some ((link.dynamics (T_world_of pj)).2.1,
        (link.dynamics (T_world_of pj)).1,
        [(link.dynamics (T_world_of pj)).2.2 0 0,
         (link.dynamics (T_world_of pj)).2.2 1 1,
         (link.dynamics (T_world_of pj)).2.2 2 2,
         (link.dynamics (T_world_of pj)).2.2 0 1,
         (link.dynamics (T_world_of pj)).2.2 0 2,
         (link.dynamics (T_world_of pj)).2.2 1 2]) := by
  cases fuel with
  | zero => simp [add_link] at h
  | succ fuel =>
    obtain ⟨p, hp⟩ := Option.isSome_iff_exists.mp h
    obtain ⟨st1, jn, q, hje, hcp, hshape⟩ := add_link_some_shape hp
    have hbo : addLinkOut cfg r (fuel+1) link pj Twp st = p := by
      rw [addLinkOut, hp]; rfl
    have hjn : firstInertial jn = none := by
      cases pj with
      | none => cases hje; rfl
      | some j =>
        obtain ⟨attrs, hj2⟩ := add_joint_shape hje
        have hj3 : jn =
            [Node.raw ("<!-- Joint from " ++ j.parent.name ++ " to " ++
              j.child.name ++ " -->"),
             Node.jointNode j.name (jointTypeStr j.joint_type) attrs] := hj2
        rw [hj3]
        rfl
    have h2 : firstInertial
        ([Node.raw ("<!-- Link " ++ link.name ++ " -->"),
          Node.bodyOpen link.name
            (pos_quat (mmul (minv Twp) (T_world_of pj)))] : List Node) = none := rfl
    rw [hbo, hshape]
    dsimp only
    simp only [List.append_assoc]
    rw [firstInertial_append_none _ h2, firstInertial_append_none _ hjn]
    rfl

/-- C7 witness: a link whose dynamics report mass 5, center of mass
`(0, 0, 1/10)`, inertia diagonal `(1, 2, 3)` and off-diagonals
`(1/10, 1/5, 3/10)`: the six entries appear in the order
`1, 2, 3, 1/10, 1/5, 3/10`. -/
theorem claim_C7_inertial_order_witness :
    (add_link cfg0 rDynW 1 linkDynW none 1 stEmpty).isSome = true ∧
    firstInertial (addLinkOut cfg0 rDynW 1 linkDynW none 1 stEmpty).2 =
      some (comW, 5, [1, 2, 3, 1/10, 1/5, 3/10]) :=
  ⟨by decide,
   claim_C7_inertial_order cfg0 rDynW 1 linkDynW none 1 stEmpty (by decide)⟩

/-- C1 counterexample: with shapes-only mode enabled (and `drawCollisions`
off, its default), the one-part robot whose part has a mesh reference and no
explicit shapes produces ONE visual-class geometry node, not zero: the claim
as stated is false. -/
theorem claim_C1_counterexample :
    (build cfgShapesOnly 1 rMeshOnly stEmpty).isSome = true ∧
    ¬ (buildOut cfgShapesOnly 1 rMeshOnly stEmpty).2.countP isVisualGeom = 0 ∧
    (buildOut cfgShapesOnly 1 rMeshOnly stEmpty).2.countP isVisualGeom = 1 := by
  refine ⟨by decide, by decide, by decide⟩

/-- C1 amended: when shapes-only mode is enabled, a part with a mesh
reference and no explicit shapes produces zero COLLISION-role geometry
nodes; the visual role (when `drawCollisions` is off, so the visual call
uses the visual policy) still emits exactly one mesh geometry node. -/
theorem claim_C1_amended (cfg : ExporterCfg) (part : Part) (T : Mat4) (st : St)
    (hmode : cfg.collision_shapes_only = true)
    (hshapes : part.shapes = none ∨ part.shapes = some []) :
    (add_geometries cfg part T "collision" "collision" st).2 = [] ∧
    (strOptTruthy part.mesh_file = true →
      (add_geometries cfg part T "visual" "visual" st).2.countP isVisualGeom
        = 1) := by
  constructor
  · rcases hshapes with h | h
    · simp [add_geometries, h, hmode]
    · simp [add_geometries, h, add_shapes, shapesLoop]
  · intro hm
    simp [add_geometries, hm, add_mesh, isVisualGeom]

/-- C1 amended witness: the mesh-only part. -/
theorem claim_C1_amended_witness :
    cfgShapesOnly.collision_shapes_only = true ∧
    (meshPart "p0" "m.stl").shapes = none ∧
    strOptTruthy (meshPart "p0" "m.stl").mesh_file = true ∧
    (add_geometries cfgShapesOnly (meshPart "p0" "m.stl") 1 "collision"
      "collision" stEmpty).2 = [] ∧
    (add_geometries cfgShapesOnly (meshPart "p0" "m.stl") 1 "visual" "visual"
      stEmpty).2.countP isVisualGeom = 1 :=
  ⟨rfl, rfl, rfl,
   (claim_C1_amended cfgShapesOnly (meshPart "p0" "m.stl") 1 stEmpty rfl
     (Or.inl rfl)).1,
   (claim_C1_amended cfgShapesOnly (meshPart "p0" "m.stl") 1 stEmpty rfl
     (Or.inl rfl)).2 rfl⟩

/-- C2 is violated by the code (a code bug against the stated invariant):
`build` resets only `self.xml`, while `self.meshes`/`self.materials` are
initialised in the constructor only. Calling `build` twice on one instance —
first on a robot referencing `a.stl`, then on a robot referencing only
`b.stl` — leaves a declaration of `a.stl` in the second document's asset
section, which a fresh-state second call would not contain. -/
theorem claim_C2_cross_call_leak :
    (build cfg0 1 rB (buildOut cfg0 1 rA stEmpty).1).isSome = true ∧
    (buildOut cfg0 1 rB (buildOut cfg0 1 rA stEmpty).1).2.countP
      (isMeshAssetOf "a.stl") = 1 ∧
    (buildOut cfg0 1 rB stEmpty).2.countP (isMeshAssetOf "a.stl") = 0 := by
  refine ⟨by decide, by decide, by decide⟩

/-- C3 counterexample: a FIXED joint whose properties contain `friction` but
not `frictionloss` makes `add_joint` abort (the pass-through loop raises
`KeyError`), so "for every joint of type FIXED, `add_joint` does not abort"
is false as stated. -/
theorem claim_C3_counterexample :
    jFixedBad.joint_type = JointType.FIXED ∧
    add_joint jFixedBad stEmpty = none :=
  ⟨rfl, rfl⟩

/-- C3 amended: for every FIXED joint whose property pass-through succeeds
(no `friction` key without `frictionloss`), `add_joint` does not abort: it
records the warning and emits a best-effort substitute joint node of type
`free` in place of the unsupported fixed joint. -/
theorem claim_C3_amended (j : Joint) (st : St)
    (hfix : j.joint_type = JointType.FIXED) (hwk : j.wellKeyed = true) :
    ∃ attrs, add_joint j st =
      some (⟨st.meshes, st.materials, st.warnings ++ [fixedJointWarning]⟩,
        [Node.raw ("<!-- Joint from " ++ j.parent.name ++ " to " ++
          j.child.name ++ " -->"),
         Node.jointNode j.name "free" attrs]) := by
  obtain ⟨attrs, ha⟩ :=
    Option.isSome_iff_exists.mp (passThrough_isSome hwk jointPassKeys)
  refine ⟨attrs, ?_⟩
  unfold add_joint
  rw [ha, hfix]
  rfl

/-- C3 amended witness: a FIXED joint with an empty property mapping. -/
theorem claim_C3_amended_witness :
    jFixedOk.joint_type = JointType.FIXED ∧
    jFixedOk.wellKeyed = true ∧
    (∃ attrs, add_joint jFixedOk stEmpty =
      some (⟨[], [], [fixedJointWarning]⟩,
        [Node.raw "<!-- Joint from p to c -->",
         Node.jointNode "jfo" "free" attrs])) :=
  ⟨rfl, rfl, claim_C3_amended jFixedOk stEmpty rfl rfl⟩

/-- C4: an actuator element is emitted for a joint exactly when its
`actuated` property is absent or true; its kind is the joint's `type`
property defaulting to `position`; a present `effort` value `e` yields the
symmetric force range attribute `"-e e"`; and motion limits `(lo, hi)` are
copied through as the control range when the kind is `position`. -/
theorem claim_C4_actuators (r : Robot) (j : Joint) (_hj : j ∈ r.joints)
    (_htyped : getProp j.properties "actuated" = none ∨
      ∃ b, getProp j.properties "actuated" = some (.b b)) :
    add_actuators r = Node.raw "<actuator>" ::
      (r.joints.flatMap actuator_for ++ [Node.raw "</actuator>"]) ∧
    ((getProp j.properties "actuated" = none ∨
      getProp j.properties "actuated" = some (.b true)) →
      ∃ attrs,
        actuator_for j = [Node.actuatorNode (actKind j) j.name j.name attrs] ∧
        (∀ e, getProp j.properties "effort" = some e →
          ("forcerange", "-" ++ e.fmt ++ " " ++ e.fmt) ∈ attrs) ∧
        (∀ lo hi, j.limits = some (lo, hi) → actKind j = "position" →
          ("ctrlrange", ratStr lo ++ " " ++ ratStr hi) ∈ attrs)) ∧
    (getProp j.properties "actuated" = some (.b false) →
      actuator_for j = []) := by
  refine ⟨rfl, ?_, ?_⟩
  · intro hcase
    have hcond : (match getProp j.properties "actuated" with
        | some v => v.truthy
        | none => true) = true := by
      rcases hcase with h | h <;> rw [h] <;> rfl
    refine ⟨(["class", "kp", "kd", "ki"].filterMap
        (fun k => (getProp j.properties k).map (fun v => (k, v.fmt)))) ++
      (match getProp j.properties "effort" with
       | some v => [("forcerange", "-" ++ v.fmt ++ " " ++ v.fmt)]
       | none => []) ++
      (match j.limits with
       | some lim =>
         if actKind j == "position" then
           [("ctrlrange", ratStr lim.1 ++ " " ++ ratStr lim.2)]
         else []
       | none => []), ?_, ?_, ?_⟩
    · unfold actuator_for
      rw [hcond]
      simp
    · intro e he
      simp [he]
    · intro lo hi hlim hkind
      simp [hlim, hkind]
  · intro h
    unfold actuator_for
    rw [h]
    rfl

/-- C4 witness: a joint with `actuated` absent, `effort` 10 and limits
`(-1, 2)` gets a `position` actuator with force range `-10 10` and control
range `-1 2`; a joint with `actuated` false gets none. -/
theorem claim_C4_actuators_witness :
    jAct ∈ rAct.joints ∧
    getProp jAct.properties "actuated" = none ∧
    actuator_for jAct = [Node.actuatorNode "position" "ja" "ja"
      [("forcerange", "-10 10"), ("ctrlrange", "-1 2")]] ∧
    getProp jNoAct.properties "actuated" = some (.b false) ∧
    actuator_for jNoAct = [] :=
  ⟨List.mem_cons_self _ _, rfl, by decide, rfl,
   (claim_C4_actuators rAct jNoAct
     (List.mem_cons_of_mem _ (List.mem_cons_self _ _))
     (Or.inr ⟨false, rfl⟩)).2.2 rfl⟩

/-- The geometry nodes of `add_shapes` are the per-shape nodes in order. -/
theorem shapesLoop_nodes (part : Part) (class_ : String) (T : Mat4) :
    ∀ (ss : List Shape) (st : St),
      (shapesLoop part class_ T ss st).2 = ss.map (shapeNode part class_ T) := by
  intro ss
  induction ss with
  | nil => intro st; rfl
  | cons s rest ih =>
    intro st
    simp [shapesLoop, ih]

/-- C9: for every emitted primitive-shape geometry node, the size parameters
are the box half-extents `size/2`, the cylinder radius and half-length
`length/2`, and the sphere radius. -/
theorem claim_C9_shape_sizes (part : Part) (class_ : String) (T : Mat4)
    (st : St) (ss : List Shape) (h : part.shapes = some ss) :
    (add_shapes part class_ T st).2 = ss.map (shapeNode part class_ T) ∧
    (∀ (Ts : Mat4) (size : Vec3),
      shapeNode part class_ T (.Box Ts size) =
        .geomBox class_ (pos_quat (mmul (mmul (minv T) part.T_world_part) Ts))
          (fun i => size i / 2)
          (if class_ == "visual" then
            some (xml_escape (part.name ++ "_material"))
          else none)) ∧
    (∀ (Ts : Mat4) (radius length : ℚ),
      shapeNode part class_ T (.Cylinder Ts radius length) =
        .geomCylinder class_
          (pos_quat (mmul (mmul (minv T) part.T_world_part) Ts)) radius
          (length / 2)
          (if class_ == "visual" then
            some (xml_escape (part.name ++ "_material"))
          else none)) ∧
    (∀ (Ts : Mat4) (radius : ℚ),
      shapeNode part class_ T (.Sphere Ts radius) =
        .geomSphere class_
          (pos_quat (mmul (mmul (minv T) part.T_world_part) Ts)) radius
          (if class_ == "visual" then
            some (xml_escape (part.name ++ "_material"))
          else none)) := by
  refine ⟨?_, fun Ts size => rfl, fun Ts radius length => rfl,
    fun Ts radius => rfl⟩
  unfold add_shapes
  rw [h]
  exact shapesLoop_nodes part class_ T ss st

/-- C9 witness: a box of size `(2, 2, 2)` yields half-extents `(1, 1, 1)`. -/
theorem claim_C9_shape_sizes_witness :
    boxPart.shapes = some [Shape.Box 1 (fun _ => 2)] ∧
    (add_shapes boxPart "collision" 1 stEmpty).2 =
      [Node.geomBox "collision"
        (pos_quat (mmul (mmul (minv 1) boxPart.T_world_part) 1))
        (fun _ => 1) none] := by
  refine ⟨rfl, ?_⟩
  rw [(claim_C9_shape_sizes boxPart "collision" 1 stEmpty
    [Shape.Box 1 (fun _ => 2)] rfl).1, List.map_cons, List.map_nil,
    (claim_C9_shape_sizes boxPart "collision" 1 stEmpty
      [Shape.Box 1 (fun _ => 2)] rfl).2.1 1 (fun _ => 2)]
  congr 2
  · funext i
    norm_num

/-- C10 counterexample: a joint whose properties hold `friction` but not
`frictionloss` makes `add_joint` abort (no joint element at all, a
`KeyError`); with both keys present the `frictionloss` attribute is emitted
twice, both occurrences carrying the value of the `frictionloss` key (2),
not the `friction` value (1). The claim as stated is false. -/
theorem claim_C10_counterexample :
    hasProp jFrOnly.properties "friction" = true ∧
    add_joint jFrOnly stEmpty = none ∧
    hasProp jFrBoth.properties "friction" = true ∧
    add_joint jFrBoth stEmpty = some (stEmpty,
      [Node.raw "<!-- Joint from p to c -->",
       Node.jointNode "jf2" "hinge"
         [("frictionloss", "2"), ("frictionloss", "2")]]) :=
  ⟨rfl, rfl, rfl, rfl⟩

/-- Every attribute produced by the pass-through loop for a key list keeps
the rename: if the `frictionloss` value is `v`, the `frictionloss`-named
attributes are exactly one per present `friction`/`frictionloss` source key,
each carrying `v`. -/
theorem passThrough_frictionloss {props : List (String × PropVal)} {v : PropVal}
    (hv : getProp props "frictionloss" = some v) :
    ∀ (ks : List String) (attrs : List (String × String)),
      passThroughAttrs props ks = some attrs →
      attrs.filter (fun a => a.1 == "frictionloss") =
        (ks.filter (fun k =>
          (k == "friction" || k == "frictionloss") && hasProp props k)).map
          (fun _ => ("frictionloss", v.fmt)) := by
  intro ks
  induction ks with
  | nil =>
    intro attrs h
    cases h
    rfl
  | cons k rest ih =>
    intro attrs h
    by_cases hk : hasProp props k = true
    · by_cases hf : k = "friction"
      · subst hf
        rw [passThroughAttrs] at h
        simp only [hk, if_true, if_pos rfl] at h
        rw [show (if ("friction" : String) == "friction" then "frictionloss"
            else "friction") = "frictionloss" from rfl, hv] at h
        cases hrest : passThroughAttrs props rest with
        | none => rw [hrest] at h; cases h
        | some arest =>
          rw [hrest] at h
          cases h
          simp [List.filter_cons, hk, ih arest hrest]
      · by_cases hfl : k = "frictionloss"
        · subst hfl
          rw [passThroughAttrs] at h
          simp only [hk, if_true] at h
          rw [show (if ("frictionloss" : String) == "friction" then
              "frictionloss" else "frictionloss") = "frictionloss" from rfl,
            hv] at h
          cases hrest : passThroughAttrs props rest with
          | none => rw [hrest] at h; cases h
          | some arest =>
            rw [hrest] at h
            cases h
            simp [List.filter_cons, hk, ih arest hrest]
        · obtain ⟨w, hw⟩ := Option.isSome_iff_exists.mp hk
          rw [passThroughAttrs] at h
          simp only [hk, if_true] at h
          rw [show (if k == "friction" then "frictionloss" else k) = k by
            simp [hf], hw] at h
          cases hrest : passThroughAttrs props rest with
          | none => rw [hrest] at h; cases h
          | some arest =>
            rw [hrest] at h
            cases h
            simp [List.filter_cons, hf, hfl, ih arest hrest]
    · rw [passThroughAttrs] at h
      simp only [hk] at h
      simp only [Bool.false_eq_true, if_false] at h
      simp [List.filter_cons, hk, ih attrs h]

/-- The pass-through loop never emits an attribute named `friction`. -/
theorem passThrough_no_friction {props : List (String × PropVal)} :
    ∀ (ks : List String) (attrs : List (String × String)),
      passThroughAttrs props ks = some attrs →
      attrs.countP (fun a => a.1 == "friction") = 0 := by
  intro ks
  induction ks with
  | nil =>
    intro attrs h
    cases h
    rfl
  | cons k rest ih =>
    intro attrs h
    by_cases hk : hasProp props k = true
    · rw [passThroughAttrs] at h
      simp only [hk, if_true] at h
      cases hg : getProp props (if k == "friction" then "frictionloss" else k) with
      | none => rw [hg] at h; cases h
      | some w =>
        rw [hg] at h
        cases hrest : passThroughAttrs props rest with
        | none => rw [hrest] at h; cases h
        | some arest =>
          rw [hrest] at h
          cases h
          have hkey : ¬ ((if k = "friction" then "frictionloss" else k) =
              "friction") := by
            by_cases hf : k = "friction"
            · simp [hf]
            · simp [hf]
          simp [List.countP_cons, hkey, ih arest hrest]
    · rw [passThroughAttrs] at h
      simp only [hk] at h
      simp only [Bool.false_eq_true, if_false] at h
      exact ih attrs h

/-- C10 amended: for every joint whose property mapping contains `friction`,
the pass-through loop uses the attribute name `frictionloss` but reads the
VALUE from the `frictionloss` key: if `frictionloss` is absent the lookup
fails and the export aborts; if it is present with value `v`, the joint
element carries the `frictionloss` attribute exactly twice (once per source
key), both occurrences with value `v`, and never a `friction` attribute. -/
theorem claim_C10_amended (j : Joint) (st : St)
    (hf : hasProp j.properties "friction" = true) :
    (hasProp j.properties "frictionloss" = false → add_joint j st = none) ∧
    (∀ v, getProp j.properties "frictionloss" = some v →
      ∃ p attrs, add_joint j st = some p ∧
        p.2 = [Node.raw ("<!-- Joint from " ++ j.parent.name ++ " to " ++
            j.child.name ++ " -->"),
          Node.jointNode j.name (jointTypeStr j.joint_type) attrs] ∧
        attrs.filter (fun a => a.1 == "frictionloss") =
          [("frictionloss", v.fmt), ("frictionloss", v.fmt)] ∧
        attrs.countP (fun a => a.1 == "friction") = 0) := by
  constructor
  · intro hfl
    have hgl : getProp j.properties "frictionloss" = none := by
      cases hgl : getProp j.properties "frictionloss" with
      | none => rfl
      | some w => rw [hasProp, hgl] at hfl; cases hfl
    have hnone : passThroughAttrs j.properties jointPassKeys = none := by
      rw [jointPassKeys]
      by_cases hc : hasProp j.properties "class" = true
      · obtain ⟨vc, hvc⟩ := Option.isSome_iff_exists.mp hc
        rw [passThroughAttrs]
        simp only [hc, if_true]
        rw [show (if ("class" : String) == "friction" then "frictionloss"
            else "class") = "class" from rfl, hvc, passThroughAttrs]
        simp only [hf, if_true]
        rw [show (if ("friction" : String) == "friction" then "frictionloss"
            else "friction") = "frictionloss" from rfl, hgl]
        rfl
      · rw [passThroughAttrs]
        simp only [hc]
        simp only [Bool.false_eq_true, if_false]
        rw [passThroughAttrs]
        simp only [hf, if_true]
        rw [show (if ("friction" : String) == "friction" then "frictionloss"
            else "friction") = "frictionloss" from rfl, hgl]
    unfold add_joint
    rw [hnone]
    rfl
  · intro v hv
    have hwk : j.wellKeyed = true := by
      rw [Joint.wellKeyed, hf, hasProp, hv]
      rfl
    obtain ⟨p, hp⟩ := add_joint_some hwk st
    obtain ⟨attrs, hattrs⟩ := add_joint_shape hp
    have hpa : passThroughAttrs j.properties jointPassKeys = some attrs := by
      unfold add_joint at hp
      cases hpa : passThroughAttrs j.properties jointPassKeys with
      | none => rw [hpa] at hp; cases hp
      | some attrs2 =>
        rw [hpa] at hp
        have h2 : p.2 = [Node.raw ("<!-- Joint from " ++ j.parent.name ++
            " to " ++ j.child.name ++ " -->"),
          Node.jointNode j.name (jointTypeStr j.joint_type) attrs2] := by
          cases hp
          rfl
        rw [h2] at hattrs
        cases hattrs
        rfl
    refine ⟨p, attrs, hp, hattrs, ?_, passThrough_no_friction jointPassKeys attrs hpa⟩
    rw [passThrough_frictionloss hv jointPassKeys attrs hpa]
    have hflp : hasProp j.properties "frictionloss" = true := by
      rw [hasProp, hv]
      rfl
    rw [jointPassKeys]
    simp [List.filter_cons, hf, hflp]

/-- C10 amended witness: the joint with `friction = 1` and
`frictionloss = 2`. -/
theorem claim_C10_amended_witness :
    hasProp jFrBoth.properties "friction" = true ∧
    getProp jFrBoth.properties "frictionloss" = some (.n 2) ∧
    (∃ p attrs, add_joint jFrBoth stEmpty = some p ∧
      p.2 = [Node.raw "<!-- Joint from p to c -->",
        Node.jointNode "jf2" "hinge" attrs] ∧
      attrs.filter (fun a => a.1 == "frictionloss") =
        [("frictionloss", "2"), ("frictionloss", "2")] ∧
      attrs.countP (fun a => a.1 == "friction") = 0) :=
  ⟨rfl, rfl,
   (claim_C10_amended jFrBoth stEmpty rfl).2 (.n 2) rfl⟩

end OnshapeMujoco
